import Mathlib

/-!
Shallow embedding of the command-execution approval engine of `agent.nvim`.

The embedded code lives in three Rust files:
- `container/src/command/executor.rs` — the registry-style `CommandExecutor`
  (`create_command_block`, `approve_command`, `reject_command`,
  `execute_command`, `validate_command`, `assess_risk_level`,
  `cleanup_executed_commands`, `list_pending_commands`);
- `src/agent/command_executor.rs` — the UI-side `CommandExecutor`
  (`execute_command_async` with its tokio timeout race);
- `controller/src/agent/command_integration.rs` — the approval event loop
  (`wait_for_approval`, `cleanup_completed_commands`).

Command text is modelled as `List Char` (Rust `String`), the id→block hash
map as an ordered list of blocks (container side) resp. an association list
(controller side).  Process spawning and the tokio timeout race are modelled
by explicit oracles / outcome data so that every definition is executable.
-/

deriving instance DecidableEq for Except

namespace AgentNvim

/-! ### Rust string primitives -/

/-- Rust `char::is_whitespace`: the Unicode `White_Space` code points. -/
def isRustWhitespace (c : Char) : Bool :=
  c.toNat = 0x09 || c.toNat = 0x0A || c.toNat = 0x0B || c.toNat = 0x0C ||
  c.toNat = 0x0D || c.toNat = 0x20 || c.toNat = 0x85 || c.toNat = 0xA0 ||
  c.toNat = 0x1680 || (0x2000 ≤ c.toNat && c.toNat ≤ 0x200A) ||
  c.toNat = 0x2028 || c.toNat = 0x2029 || c.toNat = 0x202F ||
  c.toNat = 0x205F || c.toNat = 0x3000

/-- Rust `str::trim`: drop leading and trailing whitespace. -/
def trimChars (s : List Char) : List Char :=
  ((s.dropWhile isRustWhitespace).reverse.dropWhile isRustWhitespace).reverse

/-- `headMatch pat hay` holds when `pat` occurs at the very start of `hay`. -/
def headMatch : List Char → List Char → Bool
  | [], _ => true
  | _ :: _, [] => false
  | p :: ps, c :: cs => if p = c then headMatch ps cs else false

/-- Rust `str::contains` with a literal needle: `containsSeq hay pat` holds
when `pat` occurs contiguously somewhere in `hay` (case-sensitive). -/
def containsSeq : List Char → List Char → Bool
  | [], pat => pat.isEmpty
  | c :: t, pat => headMatch pat (c :: t) || containsSeq t pat

theorem headMatch_iff (pat hay : List Char) :
    headMatch pat hay = true ↔ ∃ r, hay = pat ++ r := by
  induction pat generalizing hay with
  | nil =>
      simp [headMatch]
  | cons p ps ih =>
      cases hay with
      | nil => simp [headMatch]
      | cons c cs =>
          by_cases hpc : p = c
          · subst hpc
            simp [headMatch, ih]
          · simp only [headMatch, if_neg hpc, List.cons_append]
            constructor
            · intro h; cases h
            · rintro ⟨r, hr⟩
              exact absurd (List.head_eq_of_cons_eq hr).symm hpc

theorem containsSeq_iff (hay pat : List Char) :
    containsSeq hay pat = true ↔ ∃ l r, hay = l ++ pat ++ r := by
  induction hay with
  | nil =>
      simp only [containsSeq, List.isEmpty_iff]
      constructor
      · intro h; exact ⟨[], [], by simp [h]⟩
      · rintro ⟨l, r, hr⟩
        rcases List.append_eq_nil.1 (List.append_eq_nil.1 hr.symm).1 with ⟨-, h2⟩
        exact h2
  | cons c t ih =>
      simp only [containsSeq, Bool.or_eq_true, headMatch_iff, ih]
      constructor
      · rintro (⟨r, hr⟩ | ⟨l, r, hr⟩)
        · exact ⟨[], r, by simpa using hr⟩
        · exact ⟨c :: l, r, by simp [hr]⟩
      · rintro ⟨l, r, hr⟩
        cases l with
        | nil => exact Or.inl ⟨r, by simpa using hr⟩
        | cons x xs =>
            right
            refine ⟨xs, r, ?_⟩
            simpa using (List.tail_eq_of_cons_eq hr)

/-! ### Data model (`container/src/command/executor.rs`) -/

/-- Rust `CommandOutput`. -/
structure CommandOutput where
  stdout : List Char
  stderr : List Char
  exit_code : Int
  success : Bool
deriving DecidableEq, Repr

/-- Rust `RiskLevel`. -/
inductive RiskLevel
  | Low
  | Medium
  | High
deriving DecidableEq, Repr

/-- Rust `ApprovalStatus`.  Note the source has no `Executing` and no
`Failed` variant: a finished execution is always `Executed { output }`. -/
inductive ApprovalStatus
  | Pending
  | Approved
  | Rejected
  | Executed (output : CommandOutput)
deriving DecidableEq, Repr

/-- Rust `CommandBlock`. -/
structure CommandBlock where
  id : List Char
  command : List Char
  working_directory : List Char
  description : List Char
  risk_level : RiskLevel
  approval_status : ApprovalStatus
deriving DecidableEq, Repr

/-- `matches!(st, ApprovalStatus::Pending)`. -/
def isPending : ApprovalStatus → Bool
  | .Pending => true
  | _ => false

/-- `matches!(st, ApprovalStatus::Approved)`. -/
def isApproved : ApprovalStatus → Bool
  | .Approved => true
  | _ => false

/-- `matches!(st, ApprovalStatus::Executed { .. })`. -/
def isExecuted : ApprovalStatus → Bool
  | .Executed _ => true
  | _ => false

/-- Validation errors (`anyhow` messages of `validate_command`, and the
structurally identical `PluginError::command` messages of the copy in
`src/agent/command_executor.rs`). -/
inductive ValidationError
  | EmptyCommand
  | ForbiddenPattern (pat : List Char)
deriving DecidableEq, Repr

/-- Errors of the container `CommandExecutor` operations (`anyhow` messages). -/
inductive ExecError
  | NotFound (id : List Char)
  | NotApproved
  | Validation (e : ValidationError)
  | Spawn (msg : List Char)
deriving DecidableEq, Repr

/-! ### Pure classifiers: `validate_command` and `assess_risk_level` -/

/-- The deny-list of `validate_command` (fork bomb, root deletion,
filesystem format).  `\x7b`/`\x7d` are the literal brace characters. -/
def forbiddenPatterns : List (List Char) :=
  [":()\x7b :|:& \x7d;:".toList, "rm -rf /".toList, "mkfs".toList]

/-- `CommandExecutor::validate_command` (identical in
`container/src/command/executor.rs` and `src/agent/command_executor.rs`):
empty-after-trim check, then the deny-list scan returning the first
matching pattern. -/
def validate_command (command : List Char) : Except ValidationError Unit :=
  if (trimChars command).isEmpty then .error .EmptyCommand
  else
    match forbiddenPatterns.find? (fun pat => containsSeq command pat) with
    | some pat => .error (.ForbiddenPattern pat)
    | none => .ok ()

/-- High-tier patterns of `assess_risk_level`. -/
def highRiskPatterns : List (List Char) :=
  ["rm -rf".toList, "sudo".toList, "chmod 777".toList, "dd if=".toList,
   "mkfs".toList, "> /dev/".toList]

/-- Medium-tier patterns of `assess_risk_level`. -/
def mediumRiskPatterns : List (List Char) :=
  ["rm ".toList, "mv ".toList, "cp ".toList, "chmod".toList, "chown".toList,
   "kill".toList, "pkill".toList]

/-- `CommandExecutor::assess_risk_level`: any high-tier substring match wins,
otherwise any medium-tier match, otherwise `Low`. -/
def assess_risk_level (command : List Char) : RiskLevel :=
  if highRiskPatterns.any (fun pat => containsSeq command pat) then .High
  else if mediumRiskPatterns.any (fun pat => containsSeq command pat) then .Medium
  else .Low

/-- `CommandExecutor::is_safe_command`. -/
def is_safe_command (command : List Char) : Bool :=
  (match validate_command command with | .ok _ => true | .error _ => false) &&
  !(match assess_risk_level command with | .High => true | _ => false)

/-! ### The registry (`pending_commands : HashMap<String, CommandBlock>`)

The hash map is modelled as a list of blocks keyed by their `id` field;
keys are unique in the Rust map, so lookup and in-place update touch the
first (unique) block with the given id. -/

/-- `self.pending_commands.get(block_id)` / `get_mut` lookup. -/
def findBlock : List CommandBlock → List Char → Option CommandBlock
  | [], _ => none
  | b :: t, id => if b.id = id then some b else findBlock t id

/-- In-place mutation through `get_mut`: rewrite the (unique) block with the
given id. -/
def updateBlock : List CommandBlock → List Char → (CommandBlock → CommandBlock) → List CommandBlock
  | [], _, _ => []
  | b :: t, id, f => if b.id = id then f b :: t else b :: updateBlock t id f

/-- `command_block.approval_status = st` on a looked-up block. -/
def setStatus (st : ApprovalStatus) (b : CommandBlock) : CommandBlock :=
  { b with approval_status := st }

/-- `HashMap::insert` (replace any entry with the same key, else add). -/
def insertBlock (reg : List CommandBlock) (cb : CommandBlock) : List CommandBlock :=
  (reg.filter (fun b => decide (b.id ≠ cb.id))) ++ [cb]

/-- The approval status currently recorded for an id. -/
def statusOf (reg : List CommandBlock) (id : List Char) : Option ApprovalStatus :=
  (findBlock reg id).map (fun b => b.approval_status)

/-! ### Registry operations of the container `CommandExecutor` -/

/-- `CommandExecutor::create_command_block`.  The fresh UUID is passed in as
`block_id` (an opaque token in the source).  Note: the source performs NO
validation here — it classifies the risk and unconditionally inserts a
`Pending` block. -/
def create_command_block (reg : List CommandBlock)
    (block_id command working_directory description : List Char) :
    List CommandBlock × Except ExecError (List Char) :=
  let risk_level := assess_risk_level command
  let command_block : CommandBlock :=
    { id := block_id, command := command, working_directory := working_directory,
      description := description, risk_level := risk_level,
      approval_status := .Pending }
  (insertBlock reg command_block, .ok block_id)

/-- `CommandExecutor::approve_command`: look the block up (else `NotFound`)
and set `Approved` — unconditionally, whatever the current status. -/
def approve_command (reg : List CommandBlock) (block_id : List Char) :
    List CommandBlock × Except ExecError Unit :=
  match findBlock reg block_id with
  | none => (reg, .error (.NotFound block_id))
  | some _ => (updateBlock reg block_id (setStatus .Approved), .ok ())

/-- `CommandExecutor::reject_command`: same shape, sets `Rejected`. -/
def reject_command (reg : List CommandBlock) (block_id : List Char) :
    List CommandBlock × Except ExecError Unit :=
  match findBlock reg block_id with
  | none => (reg, .error (.NotFound block_id))
  | some _ => (updateBlock reg block_id (setStatus .Rejected), .ok ())

/-- `CommandExecutor::execute_command`.  `spawn` is the oracle for
`execute_command_internal` (the `sh -c` process run); the final `Bool`
records whether the host-shell spawn was reached.  Control flow of the
source: `NotFound` guard, `Approved` guard, re-validation, spawn, then the
status update to `Executed { output }`. -/
def execute_command (spawn : CommandBlock → Except (List Char) CommandOutput)
    (reg : List CommandBlock) (block_id : List Char) :
    List CommandBlock × Except ExecError CommandOutput × Bool :=
  match findBlock reg block_id with
  | none => (reg, .error (.NotFound block_id), false)
  | some command_block =>
    if isApproved command_block.approval_status then
      match validate_command command_block.command with
      | .error e => (reg, .error (.Validation e), false)
      | .ok _ =>
        match spawn command_block with
        | .error msg => (reg, .error (.Spawn msg), true)
        | .ok output =>
            (updateBlock reg block_id (setStatus (.Executed output)),
             .ok output, true)
    else (reg, .error .NotApproved, false)

/-- `CommandExecutor::list_pending_commands`. -/
def list_pending_commands (reg : List CommandBlock) : List CommandBlock :=
  reg.filter (fun b => isPending b.approval_status)

/-- `CommandExecutor::cleanup_executed_commands`: retain exactly the blocks
whose status is not `Executed { .. }`. -/
def cleanup_executed_commands (reg : List CommandBlock) : List CommandBlock :=
  reg.filter (fun b => !(isExecuted b.approval_status))

/-! ### UI-side executor (`src/agent/command_executor.rs`) -/

/-- `PluginError` variants used by the embedded code paths. -/
inductive PluginError
  | command (msg : List Char)
  | agent (msg : List Char)
deriving DecidableEq, Repr

/-- Outcome of racing `execute_command_with_timeout` against
`tokio::time::timeout`: the timer fired first, the inner future returned an
io error (spawn/capture failure, displayed as `msg`), or the process
completed with captured output. -/
inductive ExecOutcome
  | Elapsed
  | SpawnFail (msg : List Char)
  | Completed (output : CommandOutput)
deriving DecidableEq, Repr

/-- `format!("Command timed out after \x7b\x7d seconds", secs)`. -/
def timeoutMsg (secs : Nat) : List Char :=
  "Command timed out after ".toList ++ (Nat.repr secs).toList ++ " seconds".toList

/-- `format!("Command execution failed: \x7b\x7d", e)`. -/
def spawnFailMsg (msg : List Char) : List Char :=
  "Command execution failed: ".toList ++ msg

/-- `CommandExecutor::execute_command_async` (UI notifications to the
window/visual managers are external collaborators and modelled as always
succeeding).  Guard on `Approved`, redundant re-assignment of `Approved`,
then the three-way match on the raced execution: completion records
`Executed { output }` and returns `Ok`; an inner error records a synthetic
failed output AND returns an error; the timer firing records a synthetic
timed-out output AND returns an error. -/
def execute_command_async (timeoutSecs : Nat) (command_block : CommandBlock)
    (outcome : ExecOutcome) : CommandBlock × Except PluginError Unit :=
  if isApproved command_block.approval_status then
    let command_block := setStatus .Approved command_block
    match outcome with
    | .Completed output =>
        (setStatus (.Executed output) command_block, .ok ())
    | .SpawnFail msg =>
        let error_output : CommandOutput :=
          { stdout := [], stderr := spawnFailMsg msg, exit_code := -1,
            success := false }
        (setStatus (.Executed error_output) command_block,
         .error (.command (spawnFailMsg msg)))
    | .Elapsed =>
        let timeout_output : CommandOutput :=
          { stdout := [], stderr := timeoutMsg timeoutSecs, exit_code := -1,
            success := false }
        (setStatus (.Executed timeout_output) command_block,
         .error (.command "Command execution timed out".toList))
  else (command_block, .error (.command "Command not approved for execution".toList))

/-! ### Controller integration (`controller/src/agent/command_integration.rs`) -/

/-- `CommandApprovalEvent`. -/
inductive CommandApprovalEvent
  | Approve (id : List Char)
  | Reject (id : List Char)
  | Timeout (id : List Char)
deriving DecidableEq, Repr

/-- The proposal id an event is addressed to. -/
def eventId : CommandApprovalEvent → List Char
  | .Approve id => id
  | .Reject id => id
  | .Timeout id => id

/-- The controller's `pending_commands : HashMap<String, CommandBlock>`,
modelled as an association list with unique keys. -/
abbrev PendingMap := List (List Char × CommandBlock)

/-- `pending.remove(&id)` lookup half: the entry's block, if present. -/
def lookupPending : PendingMap → List Char → Option CommandBlock
  | [], _ => none
  | (k, b) :: t, id => if k = id then some b else lookupPending t id

/-- `pending.remove(&id)` removal half: the map without the (unique) entry;
removing an absent key leaves the map unchanged. -/
def removeEntry : PendingMap → List Char → PendingMap
  | [], _ => []
  | (k, b) :: t, id => if k = id then t else (k, b) :: removeEntry t id

/-- `CommandIntegration::wait_for_approval`.  The unbounded mpsc channel is
modelled as the list of queued events, consumed head-first by
`receiver.recv()`.  The result carries the returned value, the pending map
after the loop, and the events still queued (everything the loop did not
`recv`).  An event whose id differs from `block_id` falls to the
`_ => continue` arm: it is received and dropped. -/
def wait_for_approval (block_id : List Char) :
    List CommandApprovalEvent → PendingMap →
    Except PluginError CommandBlock × PendingMap × List CommandApprovalEvent
  | [], pending =>
      (.error (.agent "Approval channel closed unexpectedly".toList), pending, [])
  | .Approve id :: rest, pending =>
      if id = block_id then
        match lookupPending pending id with
        | some command_block =>
            (.ok (setStatus .Approved command_block), removeEntry pending id, rest)
        | none => wait_for_approval block_id rest pending
      else wait_for_approval block_id rest pending
  | .Reject id :: rest, pending =>
      if id = block_id then
        match lookupPending pending id with
        | some command_block =>
            (.ok (setStatus .Rejected command_block), removeEntry pending id, rest)
        | none => wait_for_approval block_id rest pending
      else wait_for_approval block_id rest pending
  | .Timeout id :: rest, pending =>
      if id = block_id then
        (.error (.command "Command approval timed out".toList),
         removeEntry pending id, rest)
      else wait_for_approval block_id rest pending

/-- `CommandIntegration::cleanup_completed_commands`: retain exactly the
entries whose status is `Pending` (so `Approved` — a non-terminal state —
is removed along with `Rejected` and `Executed`). -/
def cleanup_completed_commands (pending : PendingMap) : PendingMap :=
  pending.filter (fun e => isPending e.2.approval_status)

/-! ### Helper lemmas -/

theorem setStatus_id (st : ApprovalStatus) (b : CommandBlock) :
    (setStatus st b).id = b.id := rfl

theorem findBlock_updateBlock (reg : List CommandBlock) (id : List Char)
    (f : CommandBlock → CommandBlock) (hf : ∀ b, (f b).id = b.id) :
    findBlock (updateBlock reg id f) id = (findBlock reg id).map f := by
  induction reg with
  | nil => rfl
  | cons b t ih =>
      by_cases hb : b.id = id
      · simp [updateBlock, findBlock, hb, hf b]
      · simp [updateBlock, findBlock, hb, ih]

theorem updateBlock_length (reg : List CommandBlock) (id : List Char)
    (f : CommandBlock → CommandBlock) :
    (updateBlock reg id f).length = reg.length := by
  induction reg with
  | nil => rfl
  | cons b t ih =>
      by_cases hb : b.id = id
      · simp [updateBlock, hb]
      · simp [updateBlock, hb, ih]

theorem findBlock_eq_none_iff (reg : List CommandBlock) (id : List Char) :
    findBlock reg id = none ↔ ∀ b ∈ reg, b.id ≠ id := by
  induction reg with
  | nil => simp [findBlock]
  | cons b t ih =>
      by_cases hb : b.id = id
      · simp [findBlock, hb]
      · simp [findBlock, hb, ih]

theorem findBlock_none_filter (reg : List CommandBlock) (id : List Char)
    (h : findBlock reg id = none) :
    reg.filter (fun b => decide (b.id ≠ id)) = reg := by
  rw [List.filter_eq_self]
  intro a ha
  simpa using (findBlock_eq_none_iff reg id).1 h a ha

/-- The boolean containment test agrees with substring decomposition, stated
over a whole pattern list. -/
theorem exists_containsSeq_iff (cmd : List Char) (pats : List (List Char)) :
    (∃ p ∈ pats, containsSeq cmd p = true) ↔
      ∃ p ∈ pats, ∃ l r, cmd = l ++ p ++ r := by
  constructor
  · rintro ⟨p, hp, hc⟩
    exact ⟨p, hp, (containsSeq_iff cmd p).1 hc⟩
  · rintro ⟨p, hp, hd⟩
    exact ⟨p, hp, (containsSeq_iff cmd p).2 hd⟩

theorem validate_error_of_forbidden (cmd : List Char)
    (h : ∃ p ∈ forbiddenPatterns, containsSeq cmd p = true) :
    ∃ e, validate_command cmd = Except.error e := by
  unfold validate_command
  by_cases htrim : (trimChars cmd).isEmpty
  · exact ⟨.EmptyCommand, by simp [htrim]⟩
  · have hsome : (forbiddenPatterns.find? (fun pat => containsSeq cmd pat)).isSome := by
      exact List.find?_isSome.2 h
    rcases Option.isSome_iff_exists.1 hsome with ⟨p, hp⟩
    exact ⟨.ForbiddenPattern p, by simp [htrim, hp]⟩

/-! ### Claim C8 (confirmed): behaviour of `validate_command` -/

/-- Claim C8: `validate_command` returns the empty-command error exactly when
the command is empty after trimming whitespace; otherwise it returns a
forbidden-pattern error exactly when the text contains one of the three
deny-list literals as a substring; otherwise it succeeds. -/
theorem validate_command_spec (cmd : List Char) :
    (validate_command cmd = .error .EmptyCommand ↔ trimChars cmd = [])
    ∧ (trimChars cmd ≠ [] →
        ((∃ p ∈ forbiddenPatterns, ∃ l r, cmd = l ++ p ++ r) ↔
          ∃ p, validate_command cmd = .error (.ForbiddenPattern p)))
    ∧ (trimChars cmd ≠ [] →
        (∀ p ∈ forbiddenPatterns, ¬ ∃ l r, cmd = l ++ p ++ r) →
        validate_command cmd = .ok ()) := by
  by_cases htrim : (trimChars cmd).isEmpty
  · have he : trimChars cmd = [] := List.isEmpty_iff.1 htrim
    refine ⟨⟨fun _ => he, fun _ => by simp [validate_command, htrim]⟩, ?_, ?_⟩
    · intro hne; exact absurd he hne
    · intro hne; exact absurd he hne
  · have hne : trimChars cmd ≠ [] := fun h => htrim (List.isEmpty_iff.2 h)
    refine ⟨⟨?_, fun h => absurd h hne⟩, fun _ => ?_, fun _ hnopat => ?_⟩
    · intro h
      exfalso
      unfold validate_command at h
      rw [if_neg (by simpa using htrim)] at h
      rcases hfind : forbiddenPatterns.find? (fun pat => containsSeq cmd pat) with _ | p <;>
        simp [hfind] at h
    · rw [← exists_containsSeq_iff]
      constructor
      · intro h
        have hsome := List.find?_isSome.2 h
        rcases Option.isSome_iff_exists.1 hsome with ⟨p, hp⟩
        exact ⟨p, by simp [validate_command, htrim, hp]⟩
      · rintro ⟨p, hp⟩
        unfold validate_command at hp
        rw [if_neg (by simpa using htrim)] at hp
        rcases hfind : forbiddenPatterns.find? (fun pat => containsSeq cmd pat) with _ | q
        · simp [hfind] at hp
        · refine ⟨q, List.mem_of_find?_eq_some hfind, List.find?_some hfind⟩
    · have hnone : forbiddenPatterns.find? (fun pat => containsSeq cmd pat) = none := by
        rw [List.find?_eq_none]
        intro p hp hc
        exact hnopat p hp ((containsSeq_iff cmd p).1 hc)
      simp [validate_command, htrim, hnone]

/-- Claim C8 witness: the root-deletion literal is rejected with a
forbidden-pattern error, and a trimmed-empty command with the empty-command
error. -/
theorem validate_command_spec_witness :
    (∃ p, validate_command "echo hi; rm -rf /".toList = .error (.ForbiddenPattern p))
    ∧ validate_command "   ".toList = .error .EmptyCommand := by
  constructor
  · exact ((validate_command_spec "echo hi; rm -rf /".toList).2.1 (by decide)).1
      ⟨"rm -rf /".toList, by decide,
        "echo hi; ".toList, [], by decide⟩
  · exact (validate_command_spec "   ".toList).1.2 (by decide)

/-! ### Claim C7 (confirmed): behaviour of `assess_risk_level` -/

/-- Claim C7: the risk classifier is a pure function of the command text
(repeated calls agree), any High-tier substring match dominates and yields
`High`, otherwise a Medium-tier match yields `Medium`, otherwise `Low`. -/
theorem assess_risk_level_spec (cmd : List Char) :
    (assess_risk_level cmd = assess_risk_level cmd)
    ∧ ((∃ p ∈ highRiskPatterns, ∃ l r, cmd = l ++ p ++ r) →
        assess_risk_level cmd = .High)
    ∧ ((¬ ∃ p ∈ highRiskPatterns, ∃ l r, cmd = l ++ p ++ r) →
        (∃ p ∈ mediumRiskPatterns, ∃ l r, cmd = l ++ p ++ r) →
        assess_risk_level cmd = .Medium)
    ∧ ((¬ ∃ p ∈ highRiskPatterns, ∃ l r, cmd = l ++ p ++ r) →
        (¬ ∃ p ∈ mediumRiskPatterns, ∃ l r, cmd = l ++ p ++ r) →
        assess_risk_level cmd = .Low) := by
  have hhi : (highRiskPatterns.any (fun pat => containsSeq cmd pat) = true) ↔
      ∃ p ∈ highRiskPatterns, ∃ l r, cmd = l ++ p ++ r := by
    rw [List.any_eq_true]; exact exists_containsSeq_iff cmd highRiskPatterns
  have hmed : (mediumRiskPatterns.any (fun pat => containsSeq cmd pat) = true) ↔
      ∃ p ∈ mediumRiskPatterns, ∃ l r, cmd = l ++ p ++ r := by
    rw [List.any_eq_true]; exact exists_containsSeq_iff cmd mediumRiskPatterns
  refine ⟨rfl, ?_, ?_, ?_⟩
  · intro h
    simp [assess_risk_level, hhi.2 h]
  · intro hnh hm
    have h1 : highRiskPatterns.any (fun pat => containsSeq cmd pat) = false := by
      rcases hb : highRiskPatterns.any (fun pat => containsSeq cmd pat)
      · rfl
      · exact absurd (hhi.1 hb) hnh
    simp [assess_risk_level, h1, hmed.2 hm]
  · intro hnh hnm
    have h1 : highRiskPatterns.any (fun pat => containsSeq cmd pat) = false := by
      rcases hb : highRiskPatterns.any (fun pat => containsSeq cmd pat)
      · rfl
      · exact absurd (hhi.1 hb) hnh
    have h2 : mediumRiskPatterns.any (fun pat => containsSeq cmd pat) = false := by
      rcases hb : mediumRiskPatterns.any (fun pat => containsSeq cmd pat)
      · rfl
      · exact absurd (hmed.1 hb) hnm
    simp [assess_risk_level, h1, h2]

/-- Claim C7 witness: `sudo rm file` classifies `High` (the High-tier `sudo`
match dominates the Medium-tier `rm ` match). -/
theorem assess_risk_level_spec_witness :
    assess_risk_level "sudo rm file".toList = .High :=
  (assess_risk_level_spec "sudo rm file".toList).2.1
    ⟨"sudo".toList, by decide, [], " rm file".toList, by decide⟩

theorem findBlock_append_of_none (l1 l2 : List CommandBlock) (id : List Char)
    (h : findBlock l1 id = none) :
    findBlock (l1 ++ l2) id = findBlock l2 id := by
  induction l1 with
  | nil => rfl
  | cons b t ih =>
      by_cases hb : b.id = id
      · simp [findBlock, hb] at h
      · simp only [findBlock, if_neg hb] at h
        simpa [findBlock, hb] using ih h

/-! ### Claim C1 (corrected): `create_command_block` performs no validation -/

/-- Claim C1 counterexample: proposing the root-deletion literal — a
deny-list pattern — via `create_command_block` does NOT fail: it returns the
new id and `list_pending` grows from 0 to 1, refuting the claim that a
forbidden command never produces a `Pending` record. -/
theorem create_command_block_no_validation_cex :
    "rm -rf /".toList ∈ forbiddenPatterns
    ∧ containsSeq "rm -rf /".toList "rm -rf /".toList = true
    ∧ (create_command_block [] "b1".toList "rm -rf /".toList "/tmp".toList
        "cleanup".toList).2 = .ok "b1".toList
    ∧ (list_pending_commands (create_command_block [] "b1".toList
        "rm -rf /".toList "/tmp".toList "cleanup".toList).1).length = 1 := by
  decide

/-- Claim C1 amended: for every command string containing a forbidden
pattern, `create_command_block` nevertheless succeeds, inserts a `Pending`
record, and `list_pending()` grows by one (for a fresh id); validation of
the deny-list is enforced only later, at execution time. -/
theorem create_command_block_amended (reg : List CommandBlock)
    (block_id cmd wd desc : List Char)
    (hfresh : findBlock reg block_id = none)
    (_hforbidden : ∃ p ∈ forbiddenPatterns, containsSeq cmd p = true) :
    (create_command_block reg block_id cmd wd desc).2 = .ok block_id
    ∧ statusOf (create_command_block reg block_id cmd wd desc).1 block_id
        = some .Pending
    ∧ (list_pending_commands (create_command_block reg block_id cmd wd desc).1).length
        = (list_pending_commands reg).length + 1 := by
  have hfilter : reg.filter (fun b => decide (b.id ≠ block_id)) = reg :=
    findBlock_none_filter reg block_id hfresh
  have key : (create_command_block reg block_id cmd wd desc).1
      = reg ++ [{ id := block_id, command := cmd, working_directory := wd,
                  description := desc, risk_level := assess_risk_level cmd,
                  approval_status := .Pending }] := by
    unfold create_command_block insertBlock
    dsimp only
    rw [hfilter]
  refine ⟨rfl, ?_, ?_⟩
  · rw [key]
    unfold statusOf
    rw [findBlock_append_of_none reg _ block_id hfresh]
    simp [findBlock]
  · rw [key]
    unfold list_pending_commands
    rw [List.filter_append]
    simp [isPending]

/-- Claim C1 amended, witness: concrete instance on the empty registry with
the root-deletion literal. -/
theorem create_command_block_amended_witness :
    (create_command_block [] "b1".toList "rm -rf /".toList "/tmp".toList
        "x".toList).2 = .ok "b1".toList
    ∧ statusOf (create_command_block [] "b1".toList "rm -rf /".toList
        "/tmp".toList "x".toList).1 "b1".toList = some .Pending
    ∧ (list_pending_commands (create_command_block [] "b1".toList
        "rm -rf /".toList "/tmp".toList "x".toList).1).length
        = (list_pending_commands []).length + 1 :=
  create_command_block_amended [] "b1".toList "rm -rf /".toList "/tmp".toList
    "x".toList rfl ⟨"rm -rf /".toList, by decide, by decide⟩

/-! ### Claims C2 and C3 (corrected): the transition guards are missing -/

/-- A concrete low-risk block (`ls -la` in `/tmp`) in a chosen status, used
as input of concrete scenarios. -/
def lsBlock (st : ApprovalStatus) : CommandBlock :=
  { id := "b1".toList, command := "ls -la".toList,
    working_directory := "/tmp".toList, description := "list".toList,
    risk_level := .Low, approval_status := st }

theorem statusOf_update (reg : List CommandBlock) (id : List Char)
    (cb : CommandBlock) (h : findBlock reg id = some cb) (st : ApprovalStatus) :
    statusOf (updateBlock reg id (setStatus st)) id = some st := by
  unfold statusOf
  rw [findBlock_updateBlock reg id (setStatus st) (fun b => rfl), h]
  rfl

/-- Claim C2 counterexample: a `Rejected` proposal is not terminal — after
`reject_command`, a further `approve_command` succeeds and moves the block
back to `Approved`, so the observed sequence `Pending, Rejected, Approved`
leaves the claimed monotonic path. -/
theorem terminal_state_not_enforced_cex :
    (reject_command [lsBlock .Pending] "b1".toList).2 = .ok ()
    ∧ statusOf (reject_command [lsBlock .Pending] "b1".toList).1 "b1".toList
        = some .Rejected
    ∧ (approve_command (reject_command [lsBlock .Pending] "b1".toList).1
        "b1".toList).2 = .ok ()
    ∧ statusOf (approve_command (reject_command [lsBlock .Pending] "b1".toList).1
        "b1".toList).1 "b1".toList = some .Approved := by
  decide

/-- Claim C2 amended: the actual per-operation transition semantics — for a
present id, `approve_command` sets `Approved` and `reject_command` sets
`Rejected` from ANY current state (no terminality), while `execute_command`
is the only guarded operation: it leaves the registry unchanged and errors
unless the block is `Approved`, and a successful run moves an `Approved`
block to `Executed { output }` (there are no `Executing` or `Failed`
states). -/
theorem transition_semantics_amended
    (spawn : CommandBlock → Except (List Char) CommandOutput)
    (reg : List CommandBlock) (id : List Char) (cb : CommandBlock)
    (h : findBlock reg id = some cb) :
    ((approve_command reg id).2 = .ok ()
      ∧ statusOf (approve_command reg id).1 id = some .Approved)
    ∧ ((reject_command reg id).2 = .ok ()
      ∧ statusOf (reject_command reg id).1 id = some .Rejected)
    ∧ (isApproved cb.approval_status = false →
        (execute_command spawn reg id).1 = reg
        ∧ (execute_command spawn reg id).2.1 = .error .NotApproved)
    ∧ (∀ out, (execute_command spawn reg id).2.1 = .ok out →
        isApproved cb.approval_status = true
        ∧ statusOf (execute_command spawn reg id).1 id = some (.Executed out)) := by
  refine ⟨⟨?_, ?_⟩, ⟨?_, ?_⟩, ?_, ?_⟩
  · simp [approve_command, h]
  · simp only [approve_command, h]
    exact statusOf_update reg id cb h .Approved
  · simp [reject_command, h]
  · simp only [reject_command, h]
    exact statusOf_update reg id cb h .Rejected
  · intro hna
    constructor <;> simp [execute_command, h, hna]
  · intro out hout
    cases ha : isApproved cb.approval_status
    · exfalso
      simp [execute_command, h, ha] at hout
    · refine ⟨rfl, ?_⟩
      rcases hv : validate_command cb.command with e | u
      · exfalso
        simp [execute_command, h, ha, hv] at hout
      · rcases hs : spawn cb with msg | output
        · exfalso
          simp [execute_command, h, ha, hv, hs] at hout
        · have hred : execute_command spawn reg id
              = (updateBlock reg id (setStatus (.Executed output)),
                 .ok output, true) := by
            simp [execute_command, h, ha, hv, hs]
          rw [hred] at hout
          obtain rfl : output = out := by simpa using hout
          rw [hred]
          exact statusOf_update reg id cb h (.Executed output)

/-- Claim C2 amended, witness: on a registry holding one `Rejected` block,
`approve_command` succeeds and records `Approved`. -/
theorem transition_semantics_amended_witness :
    findBlock [lsBlock .Rejected] "b1".toList = some (lsBlock .Rejected)
    ∧ statusOf (approve_command [lsBlock .Rejected] "b1".toList).1 "b1".toList
        = some .Approved :=
  ⟨by decide,
   (transition_semantics_amended (fun _ => .ok ⟨[], [], 0, true⟩)
     [lsBlock .Rejected] "b1".toList (lsBlock .Rejected) (by decide)).1.2⟩

/-- Claim C3 counterexample: on an `Approved` (non-`Pending`) block,
`reject_command` does not return an invalid-transition error — it succeeds
and overwrites the state with `Rejected`. -/
theorem guard_missing_cex :
    (reject_command [lsBlock .Approved] "b1".toList).2 = .ok ()
    ∧ statusOf (reject_command [lsBlock .Approved] "b1".toList).1 "b1".toList
        = some .Rejected := by
  decide

/-- Claim C3 amended: `approve_command` and `reject_command` succeed for
every id present in the registry REGARDLESS of its current state,
unconditionally setting `Approved` resp. `Rejected`; the only failure is a
not-found error for an absent id, which leaves the registry unchanged. -/
theorem approve_reject_unguarded_amended (reg : List CommandBlock)
    (id : List Char) :
    (findBlock reg id = none →
        approve_command reg id = (reg, .error (.NotFound id))
        ∧ reject_command reg id = (reg, .error (.NotFound id)))
    ∧ (∀ cb, findBlock reg id = some cb →
        ((approve_command reg id).2 = .ok ()
          ∧ statusOf (approve_command reg id).1 id = some .Approved)
        ∧ ((reject_command reg id).2 = .ok ()
          ∧ statusOf (reject_command reg id).1 id = some .Rejected)) := by
  constructor
  · intro hnone
    constructor <;> simp [approve_command, reject_command, hnone]
  · intro cb hcb
    refine ⟨⟨?_, ?_⟩, ?_, ?_⟩
    · simp [approve_command, hcb]
    · simp only [approve_command, hcb]
      exact statusOf_update reg id cb hcb .Approved
    · simp [reject_command, hcb]
    · simp only [reject_command, hcb]
      exact statusOf_update reg id cb hcb .Rejected

/-- Claim C3 amended, witness: an `Executed` block is happily re-approved,
and a missing id yields the not-found error. -/
theorem approve_reject_unguarded_amended_witness :
    (approve_command [] "nope".toList
        = ([], .error (.NotFound "nope".toList))
      ∧ reject_command [] "nope".toList
        = ([], .error (.NotFound "nope".toList)))
    ∧ ((approve_command [lsBlock (.Executed ⟨[], [], 0, true⟩)] "b1".toList).2
        = .ok ()
      ∧ statusOf (approve_command [lsBlock (.Executed ⟨[], [], 0, true⟩)]
          "b1".toList).1 "b1".toList = some .Approved) :=
  ⟨(approve_reject_unguarded_amended [] "nope".toList).1 rfl,
   ((approve_reject_unguarded_amended [lsBlock (.Executed ⟨[], [], 0, true⟩)]
      "b1".toList).2 (lsBlock (.Executed ⟨[], [], 0, true⟩)) (by decide)).1⟩

/-! ### Claims C4 and C10: execution behaviour of `execute_command` -/

/-- A forbidden (`mkfs`) command that nevertheless sits in the registry in
`Approved` state — possible because `create_command_block` never
validates. -/
def mkfsBlock : CommandBlock :=
  { id := "b2".toList, command := "mkfs /dev/sda1".toList,
    working_directory := "/tmp".toList, description := "format".toList,
    risk_level := .High, approval_status := .Approved }

/-- A spawn oracle whose process always exits 0 with empty output. -/
def okSpawn : CommandBlock → Except (List Char) CommandOutput :=
  fun _ => .ok { stdout := [], stderr := [], exit_code := 0, success := true }

/-- Claim C4 counterexample: for an `Approved` proposal whose command text is
forbidden (`mkfs …`), calling `execute_command` twice yields TWO validation
errors and ZERO successes, and the shell is never spawned — refuting the
claim that any approved proposal executed twice gives exactly one success
and one invalid-transition error with exactly one spawn. -/
theorem at_most_once_cex :
    (execute_command okSpawn [mkfsBlock] "b2".toList).2.1
        = .error (.Validation (.ForbiddenPattern "mkfs".toList))
    ∧ (execute_command okSpawn [mkfsBlock] "b2".toList).2.2 = false
    ∧ (execute_command okSpawn
        (execute_command okSpawn [mkfsBlock] "b2".toList).1 "b2".toList).2.1
        = .error (.Validation (.ForbiddenPattern "mkfs".toList))
    ∧ (execute_command okSpawn
        (execute_command okSpawn [mkfsBlock] "b2".toList).1 "b2".toList).2.2
        = false := by
  decide

/-- Claim C4 amended: for every `Approved` proposal whose command passes
validation and whose spawn produces an output, calling `execute_command`
twice yields exactly one success and one not-approved error; the shell is
spawned on the first call only, because the first call moves the block to
`Executed` and out of the `Approved` state. -/
theorem execute_twice_amended
    (spawn : CommandBlock → Except (List Char) CommandOutput)
    (reg : List CommandBlock) (id : List Char) (cb : CommandBlock)
    (out : CommandOutput)
    (h : findBlock reg id = some cb)
    (happr : isApproved cb.approval_status = true)
    (hval : validate_command cb.command = .ok ())
    (hspawn : spawn cb = .ok out) :
    (execute_command spawn reg id).2.1 = .ok out
    ∧ (execute_command spawn reg id).2.2 = true
    ∧ (execute_command spawn (execute_command spawn reg id).1 id).2.1
        = .error .NotApproved
    ∧ (execute_command spawn (execute_command spawn reg id).1 id).2.2 = false
    ∧ (execute_command spawn (execute_command spawn reg id).1 id).1
        = (execute_command spawn reg id).1 := by
  have hred : execute_command spawn reg id
      = (updateBlock reg id (setStatus (.Executed out)), .ok out, true) := by
    simp [execute_command, h, happr, hval, hspawn]
  have hfind2 : findBlock (updateBlock reg id (setStatus (.Executed out))) id
      = some (setStatus (.Executed out) cb) := by
    rw [findBlock_updateBlock reg id (setStatus (.Executed out)) (fun b => rfl), h]
    rfl
  have hred2 : execute_command spawn
        (updateBlock reg id (setStatus (.Executed out))) id
      = (updateBlock reg id (setStatus (.Executed out)),
         .error .NotApproved, false) := by
    simp [execute_command, hfind2, setStatus, isApproved]
  rw [hred, hred2]
  exact ⟨rfl, rfl, rfl, rfl, rfl⟩

/-- Claim C4 amended, witness: the valid approved `ls -la` block executed
twice against the always-exit-0 spawn oracle. -/
theorem execute_twice_amended_witness :
    (execute_command okSpawn [lsBlock .Approved] "b1".toList).2.1
        = .ok { stdout := [], stderr := [], exit_code := 0, success := true }
    ∧ (execute_command okSpawn [lsBlock .Approved] "b1".toList).2.2 = true
    ∧ (execute_command okSpawn
        (execute_command okSpawn [lsBlock .Approved] "b1".toList).1
        "b1".toList).2.1 = .error .NotApproved
    ∧ (execute_command okSpawn
        (execute_command okSpawn [lsBlock .Approved] "b1".toList).1
        "b1".toList).2.2 = false
    ∧ (execute_command okSpawn
        (execute_command okSpawn [lsBlock .Approved] "b1".toList).1
        "b1".toList).1
        = (execute_command okSpawn [lsBlock .Approved] "b1".toList).1 :=
  execute_twice_amended okSpawn [lsBlock .Approved] "b1".toList
    (lsBlock .Approved) { stdout := [], stderr := [], exit_code := 0, success := true }
    (by decide) (by decide) (by decide) (by decide)

/-- Claim C10: validation is re-run at execution time — for every spawn
oracle and every `Approved` block whose command is empty after trimming or
contains a deny-list pattern, `execute_command` returns a validation error,
the spawn is never reached, and the registry (hence the block's `Approved`
status) is unchanged. -/
theorem execute_revalidates
    (spawn : CommandBlock → Except (List Char) CommandOutput)
    (reg : List CommandBlock) (id : List Char) (cb : CommandBlock)
    (h : findBlock reg id = some cb)
    (happr : isApproved cb.approval_status = true)
    (hbad : trimChars cb.command = []
      ∨ ∃ p ∈ forbiddenPatterns, containsSeq cb.command p = true) :
    (∃ e, (execute_command spawn reg id).2.1 = .error (.Validation e))
    ∧ (execute_command spawn reg id).2.2 = false
    ∧ (execute_command spawn reg id).1 = reg
    ∧ statusOf (execute_command spawn reg id).1 id = some cb.approval_status := by
  have hverr : ∃ e, validate_command cb.command = Except.error e := by
    rcases hbad with he | hforb
    · exact ⟨.EmptyCommand, by simp [validate_command, List.isEmpty_iff.2 he]⟩
    · exact validate_error_of_forbidden cb.command hforb
  rcases hverr with ⟨e, he⟩
  have hred : execute_command spawn reg id = (reg, .error (.Validation e), false) := by
    simp [execute_command, h, happr, he]
  rw [hred]
  exact ⟨⟨e, rfl⟩, rfl, rfl, by simp [statusOf, h]⟩

/-- Claim C10 witness: the approved forbidden `mkfs` block is refused at
execution time with no spawn and no state change. -/
theorem execute_revalidates_witness :
    (∃ e, (execute_command okSpawn [mkfsBlock] "b2".toList).2.1
        = .error (.Validation e))
    ∧ (execute_command okSpawn [mkfsBlock] "b2".toList).2.2 = false
    ∧ (execute_command okSpawn [mkfsBlock] "b2".toList).1 = [mkfsBlock]
    ∧ statusOf (execute_command okSpawn [mkfsBlock] "b2".toList).1 "b2".toList
        = some mkfsBlock.approval_status :=
  execute_revalidates okSpawn [mkfsBlock] "b2".toList mkfsBlock
    (by decide) (by decide) (Or.inr ⟨"mkfs".toList, by decide, by decide⟩)

/-! ### Claim C5 (corrected): timeout is recorded AND propagated -/

/-- Claim C5 counterexample: when the tokio timer fires,
`execute_command_async` records the synthetic failed output on the block —
but ALSO returns an error to its caller, refuting "the timeout is never
raised as an exception to the caller". -/
theorem timeout_error_propagated_cex :
    (execute_command_async 300 (lsBlock .Approved) .Elapsed).2
        = .error (.command "Command execution timed out".toList)
    ∧ (execute_command_async 300 (lsBlock .Approved) .Elapsed).1.approval_status
        = .Executed { stdout := [], stderr := timeoutMsg 300, exit_code := -1,
                      success := false } := by
  decide

/-- Claim C5 amended: on timeout the synthetic failed result (exit code −1,
`success = false`, explanatory stderr) is recorded on the proposal as its
terminal `Executed` state, and the call ADDITIONALLY returns an error to the
caller; spawn/capture failures are likewise both recorded as a synthetic
failed `Executed` output and propagated as errors; only normal completion
returns `Ok`. -/
theorem execute_async_failures_amended (secs : Nat) (cb : CommandBlock)
    (happr : isApproved cb.approval_status = true) :
    ((execute_command_async secs cb .Elapsed).1.approval_status
        = .Executed { stdout := [], stderr := timeoutMsg secs, exit_code := -1,
                      success := false }
      ∧ (execute_command_async secs cb .Elapsed).2
        = .error (.command "Command execution timed out".toList))
    ∧ (∀ msg, (execute_command_async secs cb (.SpawnFail msg)).1.approval_status
        = .Executed { stdout := [], stderr := spawnFailMsg msg, exit_code := -1,
                      success := false }
      ∧ (execute_command_async secs cb (.SpawnFail msg)).2
        = .error (.command (spawnFailMsg msg)))
    ∧ (∀ output, (execute_command_async secs cb (.Completed output)).1.approval_status
        = .Executed output
      ∧ (execute_command_async secs cb (.Completed output)).2 = .ok ()) := by
  refine ⟨⟨?_, ?_⟩, fun msg => ⟨?_, ?_⟩, fun output => ⟨?_, ?_⟩⟩ <;>
    simp [execute_command_async, happr, setStatus]

/-- Claim C5 amended, witness: the approved `ls -la` block timing out after
the default 300 seconds. -/
theorem execute_async_failures_amended_witness :
    (execute_command_async 300 (lsBlock .Approved) .Elapsed).1.approval_status
        = .Executed { stdout := [], stderr := timeoutMsg 300, exit_code := -1,
                      success := false } :=
  (execute_async_failures_amended 300 (lsBlock .Approved) (by decide)).1.1

/-! ### Claim C6 (corrected): decisions for other ids are dropped -/

/-- A second concrete pending block, keyed `other`, whose waiter never gets
its decision in the C6 scenario. -/
def otherBlock : CommandBlock :=
  { id := "other".toList, command := "pwd".toList,
    working_directory := "/tmp".toList, description := "print".toList,
    risk_level := .Low, approval_status := .Pending }

/-- A concrete pending block keyed `me`. -/
def meBlock : CommandBlock :=
  { id := "me".toList, command := "echo hi".toList,
    working_directory := "/tmp".toList, description := "hi".toList,
    risk_level := .Low, approval_status := .Pending }

/-- Claim C6 counterexample: waiting on id `me` with the queue
`[Approve other, Approve me]` returns `me`'s approved block, but afterwards
the queue is EMPTY and `other`'s entry is still pending — the decision
addressed to `other` was consumed and discarded, not requeued for its own
waiter. -/
theorem decision_dropped_cex :
    (wait_for_approval "me".toList
        [.Approve "other".toList, .Approve "me".toList]
        [("other".toList, otherBlock), ("me".toList, meBlock)]).1
      = .ok (setStatus .Approved meBlock)
    ∧ (wait_for_approval "me".toList
        [.Approve "other".toList, .Approve "me".toList]
        [("other".toList, otherBlock), ("me".toList, meBlock)]).2.2 = []
    ∧ lookupPending (wait_for_approval "me".toList
        [.Approve "other".toList, .Approve "me".toList]
        [("other".toList, otherBlock), ("me".toList, meBlock)]).2.1
        "other".toList = some otherBlock := by
  decide

/-- Claim C6 amended: the consumer loop consumes and discards every decision
event addressed to a different proposal id — processing such an event gives
exactly the same result, pending map, and leftover queue as if the event had
never been enqueued; it is not requeued or dispatched to its own waiter. -/
theorem decision_dropped_amended (block_id : List Char)
    (ev : CommandApprovalEvent) (rest : List CommandApprovalEvent)
    (pending : PendingMap) (hne : eventId ev ≠ block_id) :
    wait_for_approval block_id (ev :: rest) pending
      = wait_for_approval block_id rest pending := by
  cases ev with
  | Approve id =>
      simp only [eventId] at hne
      simp only [wait_for_approval]
      rw [if_neg hne]
  | Reject id =>
      simp only [eventId] at hne
      simp only [wait_for_approval]
      rw [if_neg hne]
  | Timeout id =>
      simp only [eventId] at hne
      simp only [wait_for_approval]
      rw [if_neg hne]

/-- Claim C6 amended, witness: a rejection addressed to `other` is dropped
by the waiter for `me`. -/
theorem decision_dropped_amended_witness :
    wait_for_approval "me".toList [.Reject "other".toList]
        [("other".toList, otherBlock)]
      = wait_for_approval "me".toList [] [("other".toList, otherBlock)] :=
  decision_dropped_amended "me".toList (.Reject "other".toList) []
    [("other".toList, otherBlock)] (by decide)

/-! ### Claim C9 (corrected): what the cleanup operations actually remove -/

/-- Claim C9 counterexample: the controller's cleanup removes an `Approved`
entry — a non-terminal state the claim says is never removed — while the
container's cleanup retains a `Rejected` entry — a terminal state the claim
says falls under the retention sweep. -/
theorem cleanup_cex :
    cleanup_completed_commands [("a".toList, lsBlock .Approved)] = []
    ∧ cleanup_executed_commands [lsBlock .Rejected] = [lsBlock .Rejected] := by
  decide

theorem isExecuted_false_iff (st : ApprovalStatus) :
    isExecuted st = false ↔ ∀ out, st ≠ .Executed out := by
  cases st <;> simp [isExecuted]

theorem isPending_true_iff (st : ApprovalStatus) :
    isPending st = true ↔ st = .Pending := by
  cases st <;> simp [isPending]

/-- Claim C9 amended: `cleanup_executed_commands` removes exactly the
entries in `Executed` state — unconditionally, with no retention policy,
age, or count involved — retaining `Pending`, `Approved` and `Rejected`
entries forever; the controller's `cleanup_completed_commands` retains
exactly the `Pending` entries, also removing the non-terminal `Approved`
ones; and no registry transition operation ever removes an entry. -/
theorem cleanup_amended
    (spawn : CommandBlock → Except (List Char) CommandOutput)
    (reg : List CommandBlock) (pending : PendingMap)
    (b : CommandBlock) (entry : List Char × CommandBlock) (id : List Char) :
    (b ∈ cleanup_executed_commands reg ↔
        b ∈ reg ∧ ∀ out, b.approval_status ≠ .Executed out)
    ∧ (entry ∈ cleanup_completed_commands pending ↔
        entry ∈ pending ∧ entry.2.approval_status = .Pending)
    ∧ (approve_command reg id).1.length = reg.length
    ∧ (reject_command reg id).1.length = reg.length
    ∧ (execute_command spawn reg id).1.length = reg.length := by
  refine ⟨?_, ?_, ?_, ?_, ?_⟩
  · rw [cleanup_executed_commands, List.mem_filter, Bool.not_eq_true',
      isExecuted_false_iff]
  · rw [cleanup_completed_commands, List.mem_filter, isPending_true_iff]
  · rcases hf : findBlock reg id with _ | cb
    · simp [approve_command, hf]
    · simp [approve_command, hf, updateBlock_length]
  · rcases hf : findBlock reg id with _ | cb
    · simp [reject_command, hf]
    · simp [reject_command, hf, updateBlock_length]
  · rcases hf : findBlock reg id with _ | cb
    · simp [execute_command, hf]
    · rcases ha : isApproved cb.approval_status
      · simp [execute_command, hf, ha]
      · rcases hv : validate_command cb.command with e' | u
        · simp [execute_command, hf, ha, hv]
        · rcases hs : spawn cb with m | o
          · simp [execute_command, hf, ha, hv, hs]
          · simp [execute_command, hf, ha, hv, hs, updateBlock_length]

/-- Claim C9 amended, witness: a terminal `Rejected` block survives the
container cleanup sweep. -/
theorem cleanup_amended_witness :
    lsBlock .Rejected ∈ cleanup_executed_commands [lsBlock .Rejected] :=
  (cleanup_amended okSpawn [lsBlock .Rejected] []
      (lsBlock .Rejected) ("x".toList, lsBlock .Pending) "b1".toList).1.2
    ⟨by decide, fun out => by simp [lsBlock]⟩

end AgentNvim
